import Mathlib

/-!
Verification of the contact-management program (Lista_Comprimida_clean_code.py).

The development shallowly embeds the entity validation, the unique-email
generator, the record-set operations and the JSON persistence codec of the
source program as executable Lean definitions, and proves or refutes the
frozen claims about them.  Randomness (random.choice) is modelled by oracle
arguments selecting an index, the uuid4 generator by an id-supply function,
and the persisted JSON file by a list of raw records.
-/

set_option maxHeartbeats 1000000

namespace Cadastro

/-- Lowercases a string character by character: model of the Python lower
method on the strings this program handles. -/
def minusculas (s : String) : String :=
  ⟨s.data.map Char.toLower⟩

/-- Characters after the last at-sign of the list (the whole list when no
at-sign occurs): model of splitting on the at-sign and keeping the last piece. -/
def aposUltimoArroba (l : List Char) : List Char :=
  (l.reverse.takeWhile (fun c => c != '@')).reverse

/-- Domain of an email: the substring after the last at-sign, as computed by
the validator of the Contato model. -/
def dominioDe (email : String) : String :=
  ⟨aposUltimoArroba email.data⟩

/-- Number of at-signs in the list. -/
def contaArroba : List Char → Nat
  | [] => 0
  | c :: resto => (if c = '@' then 1 else 0) + contaArroba resto

/-- Shallow model of the syntactic acceptance of pydantic EmailStr: exactly one
at-sign separating a non-empty local part from a non-empty domain. -/
def sintaxeEmailOk (l : List Char) : Bool :=
  contaArroba l == 1 && !(l.takeWhile (fun c => c != '@')).isEmpty
    && !(aposUltimoArroba l).isEmpty

/-- The configured allow-list of email domains (constant DOMINIOS_VALIDOS). -/
def DOMINIOS_VALIDOS : List String :=
  ["gmail.com", "hotmail.com", "yahoo.com.br", "outlook.com"]

/-- The static pool of names (constant NOMES). -/
def NOMES : List String :=
  ["Ana Silva", "Pedro Souza", "Maria Oliveira", "João Santos", "Carla Pereira",
   "Lucas Rodrigues", "Fernanda Lima", "Ricardo Costa", "Juliana Gomes", "Bruno Fernandes"]

/-- A contact: id, name, email, as held by the pydantic Contato model. -/
structure Contato where
  id : String
  nome : String
  email : String
deriving DecidableEq

/-- Full validation applied to the email field at construction: the EmailStr
syntactic check followed by the validar_email field validator, which takes the
substring after the last at-sign and tests case-sensitive membership in
DOMINIOS_VALIDOS. -/
def validaEmailB (email : String) : Bool :=
  sintaxeEmailOk email.data && DOMINIOS_VALIDOS.contains (dominioDe email)

/-- Construction of a Contato.  The name field is a StrictStr and accepts any
string; the email field must pass validaEmailB.  A failure carries the list of
failing field names, as in the errors of a pydantic ValidationError. -/
def mkContato (id nome email : String) : Except (List String) Contato :=
  if validaEmailB email then .ok ⟨id, nome, email⟩ else .error ["email"]

/-- C2: whenever the substring after the last at-sign of the email is not a
member of the domain allow-list (case-sensitive exact comparison), Contact
construction fails with a ValidationError on the email field, regardless of
the other fields, and no entity is produced. -/
theorem C2_dominio_fora_da_lista_falha (id nome email : String)
    (h : dominioDe email ∉ DOMINIOS_VALIDOS) :
    mkContato id nome email = .error ["email"] := by
  have hc : DOMINIOS_VALIDOS.contains (dominioDe email) = false := by
    by_contra hne
    exact h (by simpa using Bool.of_not_eq_false hne)
  simp [mkContato, validaEmailB, hc]
  exact fun _ => h

/-- Witness for C2 at a concrete input: bob at badhost dot com has a domain
outside the allow-list, and construction fails on the email field. -/
theorem C2_dominio_fora_da_lista_falha_witness :
    dominioDe "bob@badhost.com" ∉ DOMINIOS_VALIDOS ∧
      mkContato "x" "Bob" "bob@badhost.com" = .error ["email"] :=
  ⟨by decide, C2_dominio_fora_da_lista_falha "x" "Bob" "bob@badhost.com" (by decide)⟩

/-- C6 counterexample: constructing a Contato with an empty name and a valid
email succeeds, yielding an entity whose name is the empty string, so the
claim that an empty name always fails with a ValidationError is false. -/
theorem C6_counterexample :
    mkContato "id1" "" "ana@gmail.com" = .ok ⟨"id1", "", "ana@gmail.com"⟩ := by
  rfl

/-- C6 amended: construction does not validate the name at all (StrictStr only
requires a string); with an email passing the validation, construction succeeds
for every name, the empty string included. -/
theorem C6_nome_vazio_aceito (id nome email : String)
    (h : validaEmailB email = true) :
    mkContato id nome email = .ok ⟨id, nome, email⟩ := by
  simp [mkContato, h]

/-- Witness for the amended C6: the empty name together with a valid email
yields a successfully constructed entity. -/
theorem C6_nome_vazio_aceito_witness :
    validaEmailB "ana@gmail.com" = true ∧
      mkContato "id2" "" "ana@gmail.com" = .ok ⟨"id2", "", "ana@gmail.com"⟩ :=
  ⟨by decide, C6_nome_vazio_aceito "id2" "" "ana@gmail.com" (by decide)⟩

/-- True when the first list occurs at the very beginning of the second. -/
def comecaCom : List Char → List Char → Bool
  | [], _ => true
  | _ :: _, [] => false
  | a :: as, b :: bs => a == b && comecaCom as bs

/-- True when the first list occurs contiguously anywhere inside the second:
model of the Python membership test between two strings. -/
def contemLista (agulha : List Char) : List Char → Bool
  | [] => comecaCom agulha []
  | c :: resto => comecaCom agulha (c :: resto) || contemLista agulha resto

/-- The empty needle occurs in every list. -/
theorem contemLista_nil (l : List Char) : contemLista [] l = true := by
  induction l with
  | nil => rfl
  | cons c resto ih => simp [contemLista, ih, comecaCom]

/-- Case-insensitive name filter: keeps the contacts whose lowercased name
contains the lowercased search term. -/
def filtrar_por_nome (contatos : List Contato) (termo : String) : List Contato :=
  contatos.filter
    (fun contato => contemLista (minusculas termo).data (minusculas contato.nome).data)

/-- C7: the filter returns exactly the contacts whose name contains the term as
a case-insensitive substring, preserving relative order; it returns the empty
sequence when nothing matches, and the empty term returns all records
unchanged and in order. -/
theorem C7_filtrar_por_nome_correto (contatos : List Contato) (termo : String) :
    (filtrar_por_nome contatos termo).Sublist contatos ∧
    (∀ c, c ∈ filtrar_por_nome contatos termo ↔
      c ∈ contatos ∧ contemLista (minusculas termo).data (minusculas c.nome).data = true) ∧
    ((∀ c ∈ contatos, contemLista (minusculas termo).data (minusculas c.nome).data = false) →
      filtrar_por_nome contatos termo = []) ∧
    filtrar_por_nome contatos "" = contatos := by
  refine ⟨List.filter_sublist contatos, ?_, ?_, ?_⟩
  · intro c
    simp [filtrar_por_nome, List.mem_filter]
  · intro h
    simp only [filtrar_por_nome, List.filter_eq_nil_iff]
    intro c hc
    simp [h c hc]
  · have hvazio : (minusculas "").data = [] := rfl
    simp only [filtrar_por_nome, hvazio, contemLista_nil]
    exact List.filter_eq_self.mpr (fun c _ => rfl)

/-- Witness for C7 at concrete inputs, taking the no-match branch. -/
theorem C7_filtrar_por_nome_correto_witness :
    filtrar_por_nome [⟨"1", "Ana Silva", "ana.silva@gmail.com"⟩] "Pedro" = [] :=
  (C7_filtrar_por_nome_correto [⟨"1", "Ana Silva", "ana.silva@gmail.com"⟩] "Pedro").2.2.1
    (by decide)

/-- Deletion by name with the multiplicity policy: zero matches is a no-op with
count zero, a single match is removed, several matches defer deletion and
report the number of matches. -/
def deletar_usuario_por_nome (contatos : List Contato) (nome : String) :
    List Contato × Nat :=
  match filtrar_por_nome contatos nome with
  | [] => (contatos, 0)
  | [c] => (contatos.erase c, 1)
  | encontrados => (contatos, encontrados.length)

/-- The contact of the worked scenario named Ana Silva. -/
def anaSilva : Contato := ⟨"1", "Ana Silva", "ana.silva@gmail.com"⟩

/-- The contact of the worked scenario named Ana Souza. -/
def anaSouza : Contato := ⟨"2", "Ana Souza", "ana.souza@gmail.com"⟩

/-- C4: deletion by name obeys the multiplicity policy (no match: unchanged
with count zero; single match: that contact removed with count one; several
matches: unchanged with the match count), and on the two-contact scenario the
term Ana leaves the records unchanged with count two while the term Souza
removes Ana Souza leaving only Ana Silva with count one. -/
theorem C4_deletar_por_nome_politica :
    (∀ (contatos : List Contato) (nome : String),
      (filtrar_por_nome contatos nome = [] →
        deletar_usuario_por_nome contatos nome = (contatos, 0)) ∧
      (∀ c, filtrar_por_nome contatos nome = [c] →
        deletar_usuario_por_nome contatos nome = (contatos.erase c, 1)) ∧
      (2 ≤ (filtrar_por_nome contatos nome).length →
        deletar_usuario_por_nome contatos nome =
          (contatos, (filtrar_por_nome contatos nome).length))) ∧
    deletar_usuario_por_nome [anaSilva, anaSouza] "Ana" = ([anaSilva, anaSouza], 2) ∧
    deletar_usuario_por_nome [anaSilva, anaSouza] "Souza" = ([anaSilva], 1) := by
  refine ⟨?_, by decide, by decide⟩
  intro contatos nome
  refine ⟨?_, ?_, ?_⟩
  · intro h
    simp [deletar_usuario_por_nome, h]
  · intro c h
    simp [deletar_usuario_por_nome, h]
  · intro h
    rcases hf : filtrar_por_nome contatos nome with _ | ⟨a, _ | ⟨b, resto⟩⟩
    · rw [hf] at h; simp at h
    · rw [hf] at h; simp at h
    · simp [deletar_usuario_por_nome, hf]

/-- Witness for C4: the single-match branch applied to the Souza scenario. -/
theorem C4_deletar_por_nome_politica_witness :
    deletar_usuario_por_nome [anaSilva, anaSouza] "Souza" =
      (([anaSilva, anaSouza] : List Contato).erase anaSouza, 1) :=
  (C4_deletar_por_nome_politica.1 [anaSilva, anaSouza] "Souza").2.1 anaSouza (by decide)

/-- Replaces the first element equal to alvo by novo: model of looking up the
index of a value in a Python list and assigning the new value at that index. -/
def substituir : List Contato → Contato → Contato → List Contato
  | [], _, _ => []
  | x :: xs, alvo, novo => if x = alvo then novo :: xs else x :: substituir xs alvo novo

/-- mkContato succeeds exactly on emails passing the validation, and then
returns the entity assembled from its three arguments. -/
theorem mkContato_ok (id nome email : String) (h : validaEmailB email = true) :
    mkContato id nome email = .ok ⟨id, nome, email⟩ := by
  simp [mkContato, h]

/-- Replacing the first occurrence of a present element is setting the new
value at the index of its first occurrence. -/
theorem substituir_eq_set (l : List Contato) (c novo : Contato) (hc : c ∈ l) :
    ∃ i, ∃ hi : i < l.length,
      l.get ⟨i, hi⟩ = c ∧ substituir l c novo = l.set i novo := by
  induction l with
  | nil => cases hc
  | cons x xs ih =>
    by_cases hx : x = c
    · subst hx
      exact ⟨0, by simp, rfl, by simp [substituir]⟩
    · have hcx : c ∈ xs := by
        rcases List.mem_cons.mp hc with h | h
        · exact absurd h.symm hx
        · exact h
      obtain ⟨i, hi, hget, hsub⟩ := ih hcx
      exact ⟨i + 1, by simpa using Nat.succ_lt_succ hi,
        by simpa using hget, by simp [substituir, hx, hsub]⟩

/-- Update by name: same multiplicity policy as deletion by name; on a single
match the entry is replaced in place by a newly validated contact that keeps
the original id and takes the new name and email. -/
def atualizar_usuario_por_nome (contatos : List Contato)
    (nome_antigo novo_nome novo_email : String) :
    Except (List String) (List Contato × Nat) :=
  match filtrar_por_nome contatos nome_antigo with
  | [] => .ok (contatos, 0)
  | [c] => (mkContato c.id novo_nome novo_email).map
      (fun novo => (substituir contatos c novo, 1))
  | encontrados => .ok (contatos, encontrados.length)

/-- C5: update by name follows the multiplicity policy of deletion by name
(zero matches: no-op and count zero; several matches: no-op and the match
count), and on exactly one match with a valid new email it replaces that
entry at its position by the re-validated contact carrying the original id
and the new name and email. -/
theorem C5_atualizar_por_nome_politica (contatos : List Contato)
    (nome_antigo novo_nome novo_email : String) :
    (filtrar_por_nome contatos nome_antigo = [] →
      atualizar_usuario_por_nome contatos nome_antigo novo_nome novo_email =
        .ok (contatos, 0)) ∧
    (∀ c, filtrar_por_nome contatos nome_antigo = [c] →
      validaEmailB novo_email = true →
      ∃ i, ∃ hi : i < contatos.length,
        contatos.get ⟨i, hi⟩ = c ∧
        atualizar_usuario_por_nome contatos nome_antigo novo_nome novo_email =
          .ok (contatos.set i ⟨c.id, novo_nome, novo_email⟩, 1)) ∧
    (2 ≤ (filtrar_por_nome contatos nome_antigo).length →
      atualizar_usuario_por_nome contatos nome_antigo novo_nome novo_email =
        .ok (contatos, (filtrar_por_nome contatos nome_antigo).length)) := by
  refine ⟨?_, ?_, ?_⟩
  · intro h
    simp [atualizar_usuario_por_nome, h]
  · intro c h hval
    have hcmem : c ∈ contatos := by
      have : c ∈ filtrar_por_nome contatos nome_antigo := by simp [h]
      exact (List.mem_filter.mp this).1
    obtain ⟨i, hi, hget, hsub⟩ :=
      substituir_eq_set contatos c ⟨c.id, novo_nome, novo_email⟩ hcmem
    refine ⟨i, hi, hget, ?_⟩
    simp [atualizar_usuario_por_nome, h, mkContato_ok c.id novo_nome novo_email hval,
      Except.map, hsub]
  · intro h
    rcases hf : filtrar_por_nome contatos nome_antigo with _ | ⟨a, _ | ⟨b, resto⟩⟩
    · rw [hf] at h; simp at h
    · rw [hf] at h; simp at h
    · simp [atualizar_usuario_por_nome, hf]

/-- Witness for C5: updating the single match for the term Souza replaces the
entry of Ana Souza in place, keeping its id. -/
theorem C5_atualizar_por_nome_politica_witness :
    ∃ i, ∃ hi : i < ([anaSilva, anaSouza] : List Contato).length,
      ([anaSilva, anaSouza] : List Contato).get ⟨i, hi⟩ = anaSouza ∧
      atualizar_usuario_por_nome [anaSilva, anaSouza] "Souza" "Ana S." "ana.s@gmail.com" =
        .ok (([anaSilva, anaSouza] : List Contato).set i
          ⟨anaSouza.id, "Ana S.", "ana.s@gmail.com"⟩, 1) :=
  (C5_atualizar_por_nome_politica [anaSilva, anaSouza] "Souza" "Ana S."
    "ana.s@gmail.com").2.1 anaSouza (by decide) (by decide)

/-- Deletion by email: among the contacts matching the name, removes the one
whose email equals the given email ignoring case; when none matches, leaves
the records unchanged. -/
def deletar_usuario_por_email (contatos : List Contato) (nome email : String) :
    List Contato :=
  match (filtrar_por_nome contatos nome).find?
      (fun contato => minusculas contato.email == minusculas email) with
  | some c => contatos.erase c
  | none => contatos

/-- Update by email: among the contacts matching the old name, replaces the
one whose email equals the old email ignoring case by a re-validated contact
with the original id; when none matches, leaves the records unchanged. -/
def atualizar_usuario_por_email (contatos : List Contato)
    (nome_antigo email_antigo novo_nome novo_email : String) :
    Except (List String) (List Contato) :=
  match (filtrar_por_nome contatos nome_antigo).find?
      (fun contato => minusculas contato.email == minusculas email_antigo) with
  | some c => (mkContato c.id novo_nome novo_email).map
      (fun novo => substituir contatos c novo)
  | none => .ok contatos

/-- C9: when no name-filtered candidate has an email equal (ignoring case) to
the given email, the by-email deletion and the by-email update both return the
record set unchanged: the not-found condition is non-fatal. -/
theorem C9_nao_encontrado_sem_efeito (contatos : List Contato)
    (nome email novo_nome novo_email : String)
    (h : ∀ c ∈ filtrar_por_nome contatos nome,
      minusculas c.email ≠ minusculas email) :
    deletar_usuario_por_email contatos nome email = contatos ∧
    atualizar_usuario_por_email contatos nome email novo_nome novo_email =
      .ok contatos := by
  have hfind : (filtrar_por_nome contatos nome).find?
      (fun contato => minusculas contato.email == minusculas email) = none := by
    apply List.find?_eq_none.mpr
    intro c hc
    simpa using h c hc
  constructor
  · simp [deletar_usuario_por_email, hfind]
  · simp [atualizar_usuario_por_email, hfind]

/-- Witness for C9: searching for an absent email leaves the single-contact
record set untouched in both operations. -/
theorem C9_nao_encontrado_sem_efeito_witness :
    deletar_usuario_por_email [anaSilva] "Ana" "zz@gmail.com" = [anaSilva] ∧
    atualizar_usuario_por_email [anaSilva] "Ana" "zz@gmail.com" "Ana S."
      "ana.s@gmail.com" = .ok [anaSilva] :=
  C9_nao_encontrado_sem_efeito [anaSilva] "Ana" "zz@gmail.com" "Ana S."
    "ana.s@gmail.com" (by decide)

/-- The ten decimal digit characters by value; values of ten or more collapse
onto the last digit and are never produced by the rendering below. -/
def digitoChar (d : Nat) : Char :=
  if d = 0 then '0' else if d = 1 then '1' else if d = 2 then '2'
  else if d = 3 then '3' else if d = 4 then '4' else if d = 5 then '5'
  else if d = 6 then '6' else if d = 7 then '7' else if d = 8 then '8' else '9'

/-- Value of a decimal digit character. -/
def digitoVal (c : Char) : Nat :=
  if c = '0' then 0 else if c = '1' then 1 else if c = '2' then 2
  else if c = '3' then 3 else if c = '4' then 4 else if c = '5' then 5
  else if c = '6' then 6 else if c = '7' then 7 else if c = '8' then 8 else 9

theorem digitoVal_digitoChar : ∀ d < 10, digitoVal (digitoChar d) = d := by decide

/-- Decimal digits of a number, most significant first, empty for zero; the
fuel bounds the recursion and any fuel at least the number itself suffices. -/
def digitosAux : Nat → Nat → List Char
  | 0, _ => []
  | _ + 1, 0 => []
  | fuel + 1, n + 1 => digitosAux fuel ((n + 1) / 10) ++ [digitoChar ((n + 1) % 10)]

/-- Decimal rendering of a natural number, as produced by the Python string
formatting of the retry counter. -/
def renderNat (n : Nat) : List Char :=
  if n = 0 then ['0'] else digitosAux n n

/-- Reads back the value of a decimal digit list. -/
def valorNat (l : List Char) : Nat :=
  l.foldl (fun a c => 10 * a + digitoVal c) 0

theorem foldl_digitosAux (fuel : Nat) : ∀ n a, n ≤ fuel →
    List.foldl (fun a c => 10 * a + digitoVal c) a (digitosAux fuel n) =
      a * 10 ^ (digitosAux fuel n).length + n := by
  induction fuel with
  | zero =>
    intro n a hn
    interval_cases n
    simp [digitosAux]
  | succ fuel ih =>
    intro n a hn
    match n with
    | 0 => simp [digitosAux]
    | m + 1 =>
      have hdiv : (m + 1) / 10 ≤ fuel := by
        have := Nat.div_lt_self (Nat.succ_pos m) (by norm_num : (1 : Nat) < 10)
        omega
      have hmod : digitoVal (digitoChar ((m + 1) % 10)) = (m + 1) % 10 :=
        digitoVal_digitoChar _ (Nat.mod_lt _ (by norm_num))
      simp only [digitosAux, List.foldl_append, List.foldl_cons, List.foldl_nil,
        List.length_append, List.length_cons, List.length_nil, ih _ a hdiv, hmod]
      have hdm : 10 * ((m + 1) / 10) + (m + 1) % 10 = m + 1 := Nat.div_add_mod (m + 1) 10
      ring_nf
      ring_nf at hdm ⊢
      omega

theorem valorNat_renderNat (n : Nat) : valorNat (renderNat n) = n := by
  by_cases h : n = 0
  · subst h; decide
  · have h1 : 1 ≤ n := Nat.one_le_iff_ne_zero.mpr h
    simp only [renderNat, h, if_false, valorNat]
    rw [foldl_digitosAux n n 0 n.le_refl]
    simp

theorem renderNat_injective : Function.Injective renderNat := by
  intro a b hab
  have := valorNat_renderNat a
  rw [hab, valorNat_renderNat b] at this
  exact this.symm

theorem digitosAux_ne_nil (fuel n : Nat) (h0 : 0 < n) (hle : n ≤ fuel) :
    digitosAux fuel n ≠ [] := by
  match fuel, n with
  | 0, n => omega
  | fuel + 1, n + 1 => simp [digitosAux]

theorem renderNat_ne_nil (n : Nat) : renderNat n ≠ [] := by
  by_cases h : n = 0
  · subst h; decide
  · simpa [renderNat, h] using digitosAux_ne_nil n n (Nat.pos_of_ne_zero h) n.le_refl

/-- Suffix appended to the local part at the k-th candidate: nothing for the
first attempt, the decimal counter afterwards. -/
def sufixo : Nat → List Char
  | 0 => []
  | k + 1 => renderNat (k + 1)

theorem sufixo_injective : Function.Injective sufixo := by
  intro a b hab
  match a, b with
  | 0, 0 => rfl
  | 0, k + 1 => exact absurd hab.symm (renderNat_ne_nil (k + 1))
  | j + 1, 0 => exact absurd hab (renderNat_ne_nil (j + 1))
  | j + 1, k + 1 => exact renderNat_injective hab

/-- The k-th candidate email tried by the generator loop: local part, decimal
suffix when retrying, at-sign, domain. -/
def candidato (usuario dominio : String) (k : Nat) : String :=
  ⟨usuario.data ++ sufixo k ++ ('@' :: dominio.data)⟩

theorem candidato_injective (usuario dominio : String) :
    Function.Injective (candidato usuario dominio) := by
  intro a b hab
  unfold candidato at hab
  injection hab with hdata
  exact sufixo_injective
    (List.append_cancel_left (List.append_cancel_right hdata))

/-- Pigeonhole: among the first length-plus-two candidates, at least one is
not in the existing email list. -/
theorem existe_candidato_livre (usuario dominio : String) (emails : List String) :
    ∃ j, j ≤ emails.length + 1 ∧ candidato usuario dominio j ∉ emails := by
  by_contra hcon
  push_neg at hcon
  have hsub : (Finset.range (emails.length + 2)).image (candidato usuario dominio)
      ⊆ emails.toFinset := by
    intro x hx
    rcases Finset.mem_image.mp hx with ⟨j, hj, rfl⟩
    exact List.mem_toFinset.mpr
      (hcon j (Nat.lt_succ_iff.mp (Finset.mem_range.mp hj)))
  have hcard1 : ((Finset.range (emails.length + 2)).image
      (candidato usuario dominio)).card = emails.length + 2 := by
    rw [Finset.card_image_of_injective _ (candidato_injective usuario dominio),
      Finset.card_range]
  have hcard2 := Finset.card_le_card hsub
  have hcard3 := List.toFinset_card_le emails
  omega

/-- The generator retry loop: returns the first candidate from index k onwards
that is absent from the existing emails; the fuel bounds the number of
membership tests, and callers pass enough fuel for a free candidate to be
reached, so the unchecked fallback of the zero-fuel case is never the result. -/
def buscaLivre (usuario dominio : String) (emails : List String) :
    Nat → Nat → String
  | 0, k => candidato usuario dominio k
  | fuel + 1, k =>
    if candidato usuario dominio k ∈ emails then
      buscaLivre usuario dominio emails fuel (k + 1)
    else candidato usuario dominio k

theorem buscaLivre_eq_candidato (usuario dominio : String) (emails : List String) :
    ∀ fuel k, ∃ j, buscaLivre usuario dominio emails fuel k =
      candidato usuario dominio j := by
  intro fuel
  induction fuel with
  | zero => exact fun k => ⟨k, rfl⟩
  | succ fuel ih =>
    intro k
    by_cases h : candidato usuario dominio k ∈ emails
    · simpa [buscaLivre, h] using ih (k + 1)
    · exact ⟨k, by simp [buscaLivre, h]⟩

theorem buscaLivre_livre (usuario dominio : String) (emails : List String) :
    ∀ fuel k, (∃ j, k ≤ j ∧ j ≤ k + fuel ∧ candidato usuario dominio j ∉ emails) →
      buscaLivre usuario dominio emails fuel k ∉ emails := by
  intro fuel
  induction fuel with
  | zero =>
    intro k ⟨j, h1, h2, h3⟩
    have : j = k := by omega
    subst this
    simpa [buscaLivre] using h3
  | succ fuel ih =>
    intro k ⟨j, h1, h2, h3⟩
    by_cases h : candidato usuario dominio k ∈ emails
    · have hjk : j ≠ k := fun e => h3 (e ▸ h)
      simp only [buscaLivre, h, if_true]
      exact ih (k + 1) ⟨j, by omega, by omega, h3⟩
    · simp [buscaLivre, h]

/-- Splitting on whitespace discarding empty pieces, as the Python split with
no arguments; atual accumulates the characters of the current piece reversed. -/
def partesAux (atual : List Char) : List Char → List (List Char)
  | [] => if atual.isEmpty then [] else [atual.reverse]
  | c :: resto =>
    if c.isWhitespace then
      (if atual.isEmpty then partesAux [] resto
       else atual.reverse :: partesAux [] resto)
    else partesAux (c :: atual) resto

/-- The whitespace-separated pieces of a string, empty pieces discarded. -/
def partesNome (s : String) : List String :=
  (partesAux [] s.data).map (fun l => ⟨l⟩)

theorem getLastD_cons_mem (ps : List String) (p : String) :
    (p :: ps).getLastD p ∈ p :: ps := by
  rw [List.getLastD_cons]
  exact List.getLastD_mem_cons ps p

/-- Unique email generation: lowercases and splits the name, forms the local
part from the first and last pieces joined by a dot, takes the domain selected
by the random oracle escolha, and retries with an increasing decimal suffix
until the candidate is not among the existing emails; the chosen email is also
added to the existing set.  Returns none when the name has no pieces or the
domain list is empty, where the Python code raises an IndexError. -/
def gerar_email_unico (nome : String) (dominios : List String) (escolha : Nat)
    (emails : List String) : Option (String × List String) :=
  match partesNome (minusculas nome), dominios with
  | [], _ => none
  | _, [] => none
  | p :: ps, _ :: _ =>
    let usuario := p ++ "." ++ (p :: ps).getLastD p
    let dominio := dominios.getD (escolha % dominios.length) ""
    let e := buscaLivre usuario dominio emails (emails.length + 1) 0
    some (e, e :: emails)

/-- Unfolding equation of the generator when both the name pieces and the
domain list are non-empty. -/
theorem gerar_email_unico_eq (nome : String) (dominios : List String)
    (escolha : Nat) (emails : List String) (p : String) (ps : List String)
    (d0 : String) (ds : List String)
    (hpartes : partesNome (minusculas nome) = p :: ps)
    (hdom : dominios = d0 :: ds) :
    gerar_email_unico nome dominios escolha emails =
      some (buscaLivre (p ++ "." ++ (p :: ps).getLastD p)
          (dominios.getD (escolha % dominios.length) "") emails
          (emails.length + 1) 0,
        buscaLivre (p ++ "." ++ (p :: ps).getLastD p)
          (dominios.getD (escolha % dominios.length) "") emails
          (emails.length + 1) 0 :: emails) := by
  subst hdom
  unfold gerar_email_unico
  rw [hpartes]

/-- Structure of a successful generation: the returned email is a candidate
built from the first and last name pieces and the selected domain, it is not
among the pre-existing emails, and it is added to the returned set. -/
theorem gerar_email_unico_spec (nome : String) (dominios : List String)
    (escolha : Nat) (emails : List String)
    (hp : partesNome (minusculas nome) ≠ [])
    (hd : dominios ≠ []) :
    ∃ p q j,
      p ∈ partesNome (minusculas nome) ∧ q ∈ partesNome (minusculas nome) ∧
      gerar_email_unico nome dominios escolha emails =
        some (candidato (p ++ "." ++ q)
            (dominios.getD (escolha % dominios.length) "") j,
          candidato (p ++ "." ++ q)
            (dominios.getD (escolha % dominios.length) "") j :: emails) ∧
      candidato (p ++ "." ++ q)
        (dominios.getD (escolha % dominios.length) "") j ∉ emails := by
  obtain ⟨p, ps, hpartes⟩ : ∃ p ps, partesNome (minusculas nome) = p :: ps := by
    cases hh : partesNome (minusculas nome) with
    | nil => exact absurd hh hp
    | cons a l => exact ⟨a, l, rfl⟩
  obtain ⟨d0, ds, hdom⟩ : ∃ d0 ds, dominios = d0 :: ds := by
    cases hh : dominios with
    | nil => exact absurd hh hd
    | cons a l => exact ⟨a, l, rfl⟩
  obtain ⟨j, hj⟩ := buscaLivre_eq_candidato (p ++ "." ++ (p :: ps).getLastD p)
    (dominios.getD (escolha % dominios.length) "") emails (emails.length + 1) 0
  obtain ⟨j0, hj0le, hj0⟩ := existe_candidato_livre (p ++ "." ++ (p :: ps).getLastD p)
    (dominios.getD (escolha % dominios.length) "") emails
  have hlivre := buscaLivre_livre (p ++ "." ++ (p :: ps).getLastD p)
    (dominios.getD (escolha % dominios.length) "") emails (emails.length + 1) 0
    ⟨j0, Nat.zero_le j0, by omega, hj0⟩
  refine ⟨p, (p :: ps).getLastD p, j, ?_, ?_, ?_, ?_⟩
  · rw [hpartes]; exact List.mem_cons_self p ps
  · rw [hpartes]; exact getLastD_cons_mem ps p
  · rw [gerar_email_unico_eq nome dominios escolha emails p ps d0 ds hpartes hdom, hj]
  · rw [← hj]; exact hlivre

/-- C3: for every name with at least one whitespace-separated piece, every
non-empty domain list, any random choice and any existing email set, the
generator succeeds and returns an email that is not a member of the existing
set at call time, inserting it into the returned set. -/
theorem C3_email_gerado_nao_existente (nome : String) (dominios : List String)
    (escolha : Nat) (emails : List String)
    (hp : partesNome (minusculas nome) ≠ [])
    (hd : dominios ≠ []) :
    ∃ e s, gerar_email_unico nome dominios escolha emails = some (e, s) ∧
      e ∉ emails ∧ s = e :: emails := by
  obtain ⟨p, q, j, _, _, heq, hnot⟩ :=
    gerar_email_unico_spec nome dominios escolha emails hp hd
  exact ⟨_, _, heq, hnot, rfl⟩

/-- Witness for C3: generating for Ana Silva against a set already holding the
base candidate forces the loop to retry and still returns a fresh email. -/
theorem C3_email_gerado_nao_existente_witness :
    ∃ e s, gerar_email_unico "Ana Silva" DOMINIOS_VALIDOS 0
        ["ana.silva@gmail.com"] = some (e, s) ∧
      e ∉ ["ana.silva@gmail.com"] ∧ s = e :: ["ana.silva@gmail.com"] :=
  C3_email_gerado_nao_existente "Ana Silva" DOMINIOS_VALIDOS 0
    ["ana.silva@gmail.com"] (by decide) (by decide)

/-- A raw persisted record: the id, nome and email strings stored under the
contato wrapper key of one element of the JSON array. -/
structure RegistroBruto where
  id : String
  nome : String
  email : String
deriving DecidableEq

/-- Export: each contact is dumped to its three fields under the wrapper key,
in order. -/
def exportar_para_json (contatos : List Contato) : List RegistroBruto :=
  contatos.map (fun c => ⟨c.id, c.nome, c.email⟩)

/-- mkContato fails exactly on emails rejected by the validation, with the
email field named in the error. -/
theorem mkContato_err (id nome email : String) (h : validaEmailB email = false) :
    mkContato id nome email = .error ["email"] := by
  simp [mkContato, h]

/-- Load, record by record: each raw record is re-validated through Contato
construction, which receives only the nome and email fields, so the new
entity draws a fresh id from the uuid supply; the first failing record aborts
the whole load with its own validation error. -/
def carregarAux (ids : Nat → String) :
    Nat → List RegistroBruto → Except (List String) (List Contato)
  | _, [] => .ok []
  | i, d :: ds =>
    match mkContato (ids i) d.nome d.email with
    | .error e => .error e
    | .ok c => (carregarAux ids (i + 1) ds).map (fun cs => c :: cs)

/-- Load of a whole persisted file, the uuid generator modelled by the id
supply. -/
def carregar_json (dados : List RegistroBruto) (ids : Nat → String) :
    Except (List String) (List Contato) :=
  carregarAux ids 0 dados

/-- Reconstruction of a contact list with fresh ids drawn from the supply:
the shape of a successful load of an exported record set. -/
def recarregado (ids : Nat → String) : Nat → List Contato → List Contato
  | _, [] => []
  | i, c :: cs => ⟨ids i, c.nome, c.email⟩ :: recarregado ids (i + 1) cs

theorem recarregado_map_nome (ids : Nat → String) :
    ∀ (cs : List Contato) (i : Nat),
      (recarregado ids i cs).map Contato.nome = cs.map Contato.nome := by
  intro cs
  induction cs with
  | nil => intro i; rfl
  | cons c cs ih => intro i; simp [recarregado, ih]

theorem recarregado_map_email (ids : Nat → String) :
    ∀ (cs : List Contato) (i : Nat),
      (recarregado ids i cs).map Contato.email = cs.map Contato.email := by
  intro cs
  induction cs with
  | nil => intro i; rfl
  | cons c cs ih => intro i; simp [recarregado, ih]

theorem recarregado_map_id (ids : Nat → String) :
    ∀ (cs : List Contato) (i : Nat),
      (recarregado ids i cs).map Contato.id = (List.range' i cs.length).map ids := by
  intro cs
  induction cs with
  | nil => intro i; rfl
  | cons c cs ih => intro i; simp [recarregado, ih, List.range'_succ]

theorem carregarAux_exportar (ids : Nat → String) :
    ∀ (contatos : List Contato) (i : Nat),
      (∀ c ∈ contatos, validaEmailB c.email = true) →
      carregarAux ids i (exportar_para_json contatos) =
        .ok (recarregado ids i contatos) := by
  intro contatos
  induction contatos with
  | nil => intro i _; rfl
  | cons c cs ih =>
    intro i h
    have hc : validaEmailB c.email = true := h c (List.mem_cons_self c cs)
    have hexp : exportar_para_json (c :: cs) =
        ⟨c.id, c.nome, c.email⟩ :: exportar_para_json cs := rfl
    rw [hexp]
    simp only [carregarAux, mkContato_ok (ids i) c.nome c.email hc,
      ih (i + 1) (fun x hx => h x (List.mem_cons_of_mem c hx)), Except.map,
      recarregado]

/-- C1 counterexample: exporting a singleton valid record set and loading it
back succeeds, but the loaded contact carries the id drawn from the uuid
supply, not the persisted one, so the round trip does not preserve ids. -/
theorem C1_counterexample :
    carregar_json (exportar_para_json [⟨"id-original", "Ana Silva", "ana.silva@gmail.com"⟩])
        (fun _ => "id-novo") =
      .ok [⟨"id-novo", "Ana Silva", "ana.silva@gmail.com"⟩] ∧
    ("id-novo" : String) ≠ "id-original" :=
  ⟨rfl, by decide⟩

/-- C1 amended: for a record set of valid contacts, exporting and loading
succeeds and yields contacts with identical names and emails in the same
order, while each id is freshly drawn from the uuid supply instead of being
preserved. -/
theorem C1_exportar_carregar (contatos : List Contato) (ids : Nat → String)
    (h : ∀ c ∈ contatos, validaEmailB c.email = true) :
    carregar_json (exportar_para_json contatos) ids =
      .ok (recarregado ids 0 contatos) ∧
    (recarregado ids 0 contatos).map Contato.nome = contatos.map Contato.nome ∧
    (recarregado ids 0 contatos).map Contato.email = contatos.map Contato.email ∧
    (recarregado ids 0 contatos).map Contato.id =
      (List.range' 0 contatos.length).map ids :=
  ⟨carregarAux_exportar ids contatos 0 h, recarregado_map_nome ids contatos 0,
    recarregado_map_email ids contatos 0, recarregado_map_id ids contatos 0⟩

/-- Witness for the amended C1 on a concrete valid record set. -/
theorem C1_exportar_carregar_witness :
    carregar_json (exportar_para_json [anaSilva, anaSouza]) (fun i => toString i) =
      .ok (recarregado (fun i => toString i) 0 [anaSilva, anaSouza]) ∧
    (recarregado (fun i => toString i) 0 [anaSilva, anaSouza]).map Contato.nome =
      ([anaSilva, anaSouza] : List Contato).map Contato.nome ∧
    (recarregado (fun i => toString i) 0 [anaSilva, anaSouza]).map Contato.email =
      ([anaSilva, anaSouza] : List Contato).map Contato.email ∧
    (recarregado (fun i => toString i) 0 [anaSilva, anaSouza]).map Contato.id =
      (List.range' 0 ([anaSilva, anaSouza] : List Contato).length).map
        (fun i => toString i) :=
  C1_exportar_carregar [anaSilva, anaSouza] (fun i => toString i) (by decide)

/-- The record of the load scenario: Bob with a non-allow-listed domain. -/
def registroBob : RegistroBruto := ⟨"x", "Bob", "bob@badhost.com"⟩

/-- A second offending record. -/
def registroEveRuim : RegistroBruto := ⟨"y", "Eve", "eve@evil.com"⟩

/-- A second valid record with the same name and id. -/
def registroEveBom : RegistroBruto := ⟨"y", "Eve", "eve@gmail.com"⟩

/-- C8 counterexample: the validation condition of a failing load does not
enumerate every offending record: a file whose second record also offends and
a file whose second record is valid produce the very same error, namely the
field error of the first offending record alone, so the condition carries no
information about further offending records. -/
theorem C8_counterexample :
    carregar_json [registroBob, registroEveRuim] (fun _ => "novo") =
      carregar_json [registroBob, registroEveBom] (fun _ => "novo") ∧
    carregar_json [registroBob, registroEveRuim] (fun _ => "novo") =
      .error ["email"] ∧
    validaEmailB registroEveRuim.email = false ∧
    validaEmailB registroEveBom.email = true :=
  ⟨rfl, rfl, by decide, by decide⟩

/-- C8 amended: loading re-validates every record through Contact
construction; whenever some record has an email failing the validation, the
entire load fails with the validation error naming the email field (the error
of the first offending record), and no partial record set is produced. -/
theorem C8_carga_falha_validacao (dados : List RegistroBruto) (ids : Nat → String)
    (h : ∃ d ∈ dados, validaEmailB d.email = false) :
    carregar_json dados ids = .error ["email"] := by
  have haux : ∀ (ds : List RegistroBruto) (i : Nat),
      (∃ d ∈ ds, validaEmailB d.email = false) →
      carregarAux ids i ds = .error ["email"] := by
    intro ds
    induction ds with
    | nil => intro i ⟨d, hd, _⟩; cases hd
    | cons d ds ih =>
      intro i ⟨d0, hd0, hval⟩
      by_cases hd : validaEmailB d.email = true
      · have hds : ∃ x ∈ ds, validaEmailB x.email = false := by
          rcases List.mem_cons.mp hd0 with he | he
          · rw [he] at hval; rw [hval] at hd; cases hd
          · exact ⟨d0, he, hval⟩
        simp only [carregarAux, mkContato_ok (ids i) d.nome d.email hd,
          ih (i + 1) hds, Except.map]
      · simp only [carregarAux,
          mkContato_err (ids i) d.nome d.email (Bool.eq_false_iff.mpr hd)]
  exact haux dados 0 h

/-- Witness for the amended C8: the spec scenario, a single persisted record
for Bob with a non-allow-listed domain, fails the whole load naming the email
field. -/
theorem C8_carga_falha_validacao_witness :
    carregar_json [registroBob] (fun _ => "novo") = .error ["email"] :=
  C8_carga_falha_validacao [registroBob] (fun _ => "novo")
    ⟨registroBob, by decide, by decide⟩

theorem partesAux_chars : ∀ (l atual part : List Char),
    part ∈ partesAux atual l → ∀ c ∈ part, c ∈ l ∨ c ∈ atual := by
  intro l
  induction l with
  | nil =>
    intro atual part hpart c hc
    cases h : atual.isEmpty with
    | true => simp [partesAux, h] at hpart
    | false =>
      simp only [partesAux, h, Bool.false_eq_true, if_false,
        List.mem_singleton] at hpart
      subst hpart
      exact Or.inr (List.mem_reverse.mp hc)
  | cons c0 resto ih =>
    intro atual part hpart c hc
    cases hw : c0.isWhitespace with
    | true =>
      simp only [partesAux, hw, if_true] at hpart
      cases he : atual.isEmpty with
      | true =>
        rw [if_pos he] at hpart
        rcases ih [] part hpart c hc with h | h
        · exact Or.inl (List.mem_cons_of_mem c0 h)
        · cases h
      | false =>
        rw [if_neg (by rw [he]; decide)] at hpart
        rcases List.mem_cons.mp hpart with h | h
        · subst h
          exact Or.inr (List.mem_reverse.mp hc)
        · rcases ih [] part h c hc with h2 | h2
          · exact Or.inl (List.mem_cons_of_mem c0 h2)
          · cases h2
    | false =>
      simp only [partesAux, hw, Bool.false_eq_true, if_false] at hpart
      rcases ih (c0 :: atual) part hpart c hc with h | h
      · exact Or.inl (List.mem_cons_of_mem c0 h)
      · rcases List.mem_cons.mp h with h2 | h2
        · exact Or.inl (h2 ▸ List.mem_cons_self c0 resto)
        · exact Or.inr h2

/-- Every character of a whitespace-separated piece occurs in the split
string. -/
theorem partesNome_chars (s p : String) (hp : p ∈ partesNome s) :
    ∀ c ∈ p.data, c ∈ s.data := by
  intro c hc
  rcases List.mem_map.mp hp with ⟨part, hpart, hmk⟩
  have hcp : c ∈ part := by
    have : p.data = part := by rw [← hmk]
    rwa [this] at hc
  rcases partesAux_chars s.data [] part hpart c hcp with h | h
  · exact h
  · cases h

theorem digitoChar_ne_arroba (d : Nat) : digitoChar d ≠ '@' := by
  unfold digitoChar
  split <;> try decide
  split <;> try decide
  split <;> try decide
  split <;> try decide
  split <;> try decide
  split <;> try decide
  split <;> try decide
  split <;> try decide
  split <;> decide

theorem digitosAux_sem_arroba (fuel : Nat) : ∀ n, '@' ∉ digitosAux fuel n := by
  induction fuel with
  | zero => intro n; simp [digitosAux]
  | succ fuel ih =>
    intro n
    match n with
    | 0 => simp [digitosAux]
    | m + 1 =>
      simp only [digitosAux, List.mem_append, List.mem_singleton]
      rintro (h | h)
      · exact ih _ h
      · exact digitoChar_ne_arroba _ h.symm

theorem sufixo_sem_arroba (k : Nat) : '@' ∉ sufixo k := by
  match k with
  | 0 => simp [sufixo]
  | j + 1 =>
    simp only [sufixo, renderNat]
    split
    · decide
    · exact digitosAux_sem_arroba (j + 1) (j + 1)

theorem contaArroba_append (xs ys : List Char) :
    contaArroba (xs ++ ys) = contaArroba xs + contaArroba ys := by
  induction xs with
  | nil => simp [contaArroba]
  | cons x xs ih => simp [contaArroba, ih]; omega

theorem contaArroba_zero (xs : List Char) (h : '@' ∉ xs) : contaArroba xs = 0 := by
  induction xs with
  | nil => rfl
  | cons x xs ih =>
    have hx : ¬x = '@' := fun e => h (e ▸ List.mem_cons_self x xs)
    have hxs : '@' ∉ xs := fun hm => h (List.mem_cons_of_mem x hm)
    simp [contaArroba, hx, ih hxs]

theorem takeWhile_prefixo (p : Char → Bool) :
    ∀ (xs : List Char) (y : Char) (ys : List Char),
      (∀ c ∈ xs, p c = true) → p y = false →
      List.takeWhile p (xs ++ y :: ys) = xs := by
  intro xs
  induction xs with
  | nil => intro y ys _ hy; simp [List.takeWhile_cons, hy]
  | cons x xs ih =>
    intro y ys hall hy
    have hx : p x = true := hall x (List.mem_cons_self x xs)
    simp only [List.cons_append, List.takeWhile_cons, hx, if_true]
    rw [ih y ys (fun c hc => hall c (List.mem_cons_of_mem x hc)) hy]

/-- A candidate assembled from an at-sign-free non-empty local part and an
at-sign-free non-empty allow-listed domain passes the whole email validation,
and its domain is the chosen one. -/
theorem validaEmailB_candidato (u d : String)
    (hu : '@' ∉ u.data) (hune : u.data ≠ [])
    (hd : '@' ∉ d.data) (hdne : d.data ≠ [])
    (hdom : d ∈ DOMINIOS_VALIDOS) (k : Nat) :
    validaEmailB (candidato u d k) = true ∧ dominioDe (candidato u d k) = d := by
  have hdata : (candidato u d k).data = (u.data ++ sufixo k) ++ ('@' :: d.data) := by
    simp [candidato]
  have hlocal : ∀ c ∈ u.data ++ sufixo k, (c != '@') = true := by
    intro c hc
    rcases List.mem_append.mp hc with h | h
    · have : c ≠ '@' := fun e => hu (e ▸ h)
      simpa using this
    · have : c ≠ '@' := fun e => sufixo_sem_arroba k (e ▸ h)
      simpa using this
  have harroba : (('@' : Char) != '@') = false := by decide
  have htake : (candidato u d k).data.takeWhile (fun c => c != '@') =
      u.data ++ sufixo k := by
    rw [hdata]
    exact takeWhile_prefixo _ (u.data ++ sufixo k) '@' d.data hlocal harroba
  have hconta : contaArroba (candidato u d k).data = 1 := by
    rw [hdata, contaArroba_append, contaArroba_zero _
      (fun hm => by
        rcases List.mem_append.mp hm with h | h
        · exact hu h
        · exact sufixo_sem_arroba k h)]
    simp [contaArroba, contaArroba_zero d.data hd]
  have hapos : aposUltimoArroba (candidato u d k).data = d.data := by
    rw [aposUltimoArroba, hdata]
    have hrev : ((u.data ++ sufixo k) ++ ('@' :: d.data)).reverse =
        d.data.reverse ++ ('@' :: (u.data ++ sufixo k).reverse) := by
      simp
    rw [hrev, takeWhile_prefixo (fun c => c != '@') d.data.reverse '@'
      ((u.data ++ sufixo k).reverse)
      (fun c hc => by
        have hcne : c ≠ '@' := fun e => hd (e ▸ List.mem_reverse.mp hc)
        simpa using hcne) harroba]
    simp
  have hdominio : dominioDe (candidato u d k) = d := by
    rw [dominioDe, hapos]
  refine ⟨?_, hdominio⟩
  have hsintaxe : sintaxeEmailOk (candidato u d k).data = true := by
    rw [sintaxeEmailOk, hconta, htake, hapos]
    simp [List.isEmpty_eq_true, hune, hdne]
  have hcont : DOMINIOS_VALIDOS.contains (dominioDe (candidato u d k)) = true := by
    rw [hdominio]
    simpa using hdom
  rw [validaEmailB, hsintaxe, hcont]
  rfl

/-- Indexing with the random oracle reduced modulo the length lands in the
list. -/
theorem getD_mod_mem (l : List String) (hne : l ≠ []) (i : Nat) :
    l.getD (i % l.length) "" ∈ l := by
  have hpos : 0 < l.length := List.length_pos.mpr hne
  have hlt : i % l.length < l.length := Nat.mod_lt i hpos
  have hget : l.getD (i % l.length) "" = l.get ⟨i % l.length, hlt⟩ := by
    simp [List.getD_eq_getElem?_getD, List.getElem?_eq_getElem hlt,
      List.get_eq_getElem]
  rw [hget]
  exact List.get_mem l _ hlt

/-- Creation of one random contact: picks the name selected by the oracle,
generates a unique email for it, and constructs the validated entity with the
fresh id; none models the exceptions raised by the underlying calls. -/
def criar_contato (nomes dominios : List String) (escNome escDom : Nat)
    (id0 : String) (emails : List String) : Option (Contato × List String) :=
  match nomes with
  | [] => none
  | _ :: _ =>
    match gerar_email_unico (nomes.getD (escNome % nomes.length) "")
        dominios escDom emails with
    | none => none
    | some (email, emails2) =>
      match mkContato id0 (nomes.getD (escNome % nomes.length) "") email with
      | .ok c => some (c, emails2)
      | .error _ => none

/-- Well-formedness of the name pool: every name has at least one
whitespace-separated piece after lowercasing and holds no at-sign. -/
abbrev nomesBons (nomes : List String) : Prop :=
  ∀ n ∈ nomes, partesNome (minusculas n) ≠ [] ∧ '@' ∉ (minusculas n).data

/-- Well-formedness of the domain pool: every domain is allow-listed,
non-empty and holds no at-sign. -/
abbrev dominiosBons (dominios : List String) : Prop :=
  ∀ d ∈ dominios, d ∈ DOMINIOS_VALIDOS ∧ d.data ≠ [] ∧ '@' ∉ d.data

theorem criar_contato_spec (nomes dominios : List String) (escNome escDom : Nat)
    (id0 : String) (emails : List String)
    (hnomes : nomes ≠ []) (hdominios : dominios ≠ [])
    (hn : nomesBons nomes) (hd : dominiosBons dominios) :
    ∃ c, criar_contato nomes dominios escNome escDom id0 emails =
        some (c, c.email :: emails) ∧
      c.nome ∈ nomes ∧ dominioDe c.email ∈ dominios ∧
      c.email ∉ emails ∧ c.id = id0 := by
  obtain ⟨n0, ns, hcons⟩ : ∃ n0 ns, nomes = n0 :: ns := by
    cases hh : nomes with
    | nil => exact absurd hh hnomes
    | cons a l => exact ⟨a, l, rfl⟩
  have hnmem : nomes.getD (escNome % nomes.length) "" ∈ nomes :=
    getD_mod_mem nomes hnomes escNome
  obtain ⟨hpartes, harroba⟩ := hn _ hnmem
  obtain ⟨p, q, j, hpmem, hqmem, hgerar, hlivre⟩ :=
    gerar_email_unico_spec (nomes.getD (escNome % nomes.length) "") dominios
      escDom emails hpartes hdominios
  have hdmem : dominios.getD (escDom % dominios.length) "" ∈ dominios :=
    getD_mod_mem dominios hdominios escDom
  obtain ⟨hdlista, hdne, hdarroba⟩ := hd _ hdmem
  have huarroba : '@' ∉ (p ++ "." ++ q).data := by
    simp only [String.data_append, List.mem_append]
    rintro ((h | h) | h)
    · exact harroba (partesNome_chars _ p hpmem '@' h)
    · revert h; decide
    · exact harroba (partesNome_chars _ q hqmem '@' h)
  have hune : (p ++ "." ++ q).data ≠ [] := by
    simp [String.data_append]
  obtain ⟨hvalida, hdominio⟩ := validaEmailB_candidato (p ++ "." ++ q)
    (dominios.getD (escDom % dominios.length) "") huarroba hune hdarroba
    (by simpa [List.isEmpty_eq_true] using hdne) hdlista j
  refine ⟨⟨id0, nomes.getD (escNome % nomes.length) "",
    candidato (p ++ "." ++ q) (dominios.getD (escDom % dominios.length) "") j⟩,
    ?_, hnmem, ?_, hlivre, rfl⟩
  · rw [hcons]
    simp only [criar_contato]
    rw [← hcons, hgerar]
    have hmk := mkContato_ok id0 (nomes.getD (escNome % nomes.length) "")
      (candidato (p ++ "." ++ q) (dominios.getD (escDom % dominios.length) "") j)
      hvalida
    simp only [List.getD_eq_getElem?_getD] at hmk
    simp [hmk]
  · rw [hdominio]
    exact hdmem

/-- Batch generation loop: one contact per step, threading the set of already
generated emails; the oracles are consulted at the position of each step. -/
def gerarAux (nomes dominios : List String) (eN eD : Nat → Nat)
    (ids : Nat → String) : Nat → Nat → List String → Option (List Contato)
  | 0, _, _ => some []
  | q + 1, i, emails =>
    match criar_contato nomes dominios (eN i) (eD i) (ids i) emails with
    | none => none
    | some (c, emails2) =>
      match gerarAux nomes dominios eN eD ids q (i + 1) emails2 with
      | none => none
      | some cs => some (c :: cs)

/-- Batch generation: a fresh empty set of existing emails is created and
threaded through the creation of every contact of the batch. -/
def gerar_contatos (quantidade : Nat) (nomes dominios : List String)
    (eN eD : Nat → Nat) (ids : Nat → String) : Option (List Contato) :=
  gerarAux nomes dominios eN eD ids quantidade 0 []

theorem gerarAux_spec (nomes dominios : List String) (eN eD : Nat → Nat)
    (ids : Nat → String) (hnomes : nomes ≠ []) (hdominios : dominios ≠ [])
    (hn : nomesBons nomes) (hd : dominiosBons dominios) :
    ∀ (q i : Nat) (emails : List String),
      ∃ l, gerarAux nomes dominios eN eD ids q i emails = some l ∧
        l.length = q ∧
        (∀ c ∈ l, c.nome ∈ nomes ∧ dominioDe c.email ∈ dominios ∧
          c.email ∉ emails) ∧
        (l.map Contato.email).Nodup := by
  intro q
  induction q with
  | zero =>
    intro i emails
    exact ⟨[], rfl, rfl, by simp, by simp⟩
  | succ q ih =>
    intro i emails
    obtain ⟨c, hceq, hcnome, hcdom, hcnot, _⟩ :=
      criar_contato_spec nomes dominios (eN i) (eD i) (ids i) emails
        hnomes hdominios hn hd
    obtain ⟨l, hleq, hllen, hlall, hlnodup⟩ := ih (i + 1) (c.email :: emails)
    refine ⟨c :: l, ?_, by simp [hllen], ?_, ?_⟩
    · simp only [gerarAux, hceq, hleq]
    · intro x hx
      rcases List.mem_cons.mp hx with h | h
      · exact h ▸ ⟨hcnome, hcdom, hcnot⟩
      · obtain ⟨h1, h2, h3⟩ := hlall x h
        exact ⟨h1, h2, fun hm => h3 (List.mem_cons_of_mem _ hm)⟩
    · rw [List.map_cons, List.nodup_cons]
      refine ⟨?_, hlnodup⟩
      intro hmem
      rcases List.mem_map.mp hmem with ⟨x, hx, hxe⟩
      exact (hlall x hx).2.2 (hxe ▸ List.mem_cons_self c.email emails)

/-- C10: for every quantity and well-formed non-empty pools, batch generation
succeeds with exactly that many contacts, their emails pairwise distinct
(the fresh existing-emails set is threaded through every step), every name
drawn from the name pool and every email domain drawn from the domain list. -/
theorem C10_gerar_contatos_distintos (quantidade : Nat)
    (nomes dominios : List String) (eN eD : Nat → Nat) (ids : Nat → String)
    (hnomes : nomes ≠ []) (hdominios : dominios ≠ [])
    (hn : nomesBons nomes) (hd : dominiosBons dominios) :
    ∃ l, gerar_contatos quantidade nomes dominios eN eD ids = some l ∧
      l.length = quantidade ∧ (l.map Contato.email).Nodup ∧
      ∀ c ∈ l, c.nome ∈ nomes ∧ dominioDe c.email ∈ dominios := by
  obtain ⟨l, heq, hlen, hall, hnodup⟩ :=
    gerarAux_spec nomes dominios eN eD ids hnomes hdominios hn hd quantidade 0 []
  exact ⟨l, heq, hlen, hnodup, fun c hc => ⟨(hall c hc).1, (hall c hc).2.1⟩⟩

/-- Witness for C10 with the default pools of the program, quantity two and
constant oracles: the second generation collides with the first and is forced
into the suffixed retry, still yielding pairwise distinct emails. -/
theorem C10_gerar_contatos_distintos_witness :
    ∃ l, gerar_contatos 2 NOMES DOMINIOS_VALIDOS (fun _ => 0) (fun _ => 0)
        (fun i => toString i) = some l ∧
      l.length = 2 ∧ (l.map Contato.email).Nodup ∧
      ∀ c ∈ l, c.nome ∈ NOMES ∧ dominioDe c.email ∈ DOMINIOS_VALIDOS :=
  C10_gerar_contatos_distintos 2 NOMES DOMINIOS_VALIDOS (fun _ => 0) (fun _ => 0)
    (fun i => toString i) (by decide) (by decide) (by decide) (by decide)

end Cadastro
